import Mathlib

/-!
Verification development for the 432 Hz audio converter
(files commandconverter432.py and converter.py).

The Python code is shallowly embedded in Lean.  Numeric computations that
the scripts perform with IEEE binary64 floats are modelled with exact
rational arithmetic; where a float rounding step actually decides a
program-visible outcome (the length of np.arange(424.0, 448.1, 0.1)), the
exact rational values of the binary64 constants involved are used and the
rounding analysis is recorded in the doc comment of the definition.

External collaborators are modelled at their interface:
* pydub sample buffers are a list of (mono) integer samples plus a frame
  rate; the pydub frame-count computations (truncating int(...)
  conversions in AudioSegment.silent and millisecond slicing) are
  reproduced;
* the FFT (numpy.fft) is passed to the detector as a function from the
  windowed samples to the list of spectrum magnitudes, exactly as the
  script consumes it;
* decode / encode and the downloader are passed to the orchestrator as
  fallible functions, and the file system is an association list from
  paths to file contents.
-/

namespace MusicVidGen

/-! ## Candidate Grid Builder -/

/-- The canonical 108-entry 440 Hz equal-temperament ladder, copied from the
`tone_freq` numpy array of the scripts (decimal literals are exact in ℚ). -/
def tone_freq : List ℚ := [
  16.35, 17.32, 18.35, 19.45, 20.6, 21.83, 23.12, 24.5, 25.96, 27.5, 29.14, 30.87,
  32.7, 34.65, 36.71, 38.89, 41.2, 43.65, 46.25, 49, 51.91, 55, 58.27, 61.74,
  65.41, 69.3, 73.42, 77.78, 82.41, 87.31, 92.5, 98, 103.83, 110, 116.54, 123.47,
  130.81, 138.59, 146.83, 155.56, 164.81, 174.61, 185, 196, 207.65, 220, 233.08, 246.94,
  261.63, 277.18, 293.66, 311.13, 329.63, 349.23, 369.99, 392, 415.3, 440, 466.16, 493.88,
  523.25, 554.37, 587.33, 622.25, 659.25, 698.46, 739.99, 783.99, 830.61, 880, 932.33, 987.77,
  1046.5, 1108.73, 1174.66, 1244.51, 1318.51, 1396.91, 1479.98, 1567.98, 1661.22, 1760, 1864.66, 1975.53,
  2093, 2217.46, 2349.32, 2489.02, 2637.02, 2793.83, 2959.96, 3135.96, 3322.44, 3520, 3729.31, 3951.07,
  4186.01, 4434.92, 4698.63, 4978.03, 5274.04, 5587.65, 5919.91, 6271.93, 6644.88, 7040, 7458.62, 7902.13]

/-- The exact rational value of the IEEE binary64 double nearest to 0.1,
the step argument of np.arange in the scripts. -/
def f01 : ℚ := 3602879701896397 / 2 ^ 55

/-- The exact rational value of the IEEE binary64 double nearest to 448.1,
the stop argument of np.arange in the scripts. -/
def f4481 : ℚ := 3941529283251405 / 2 ^ 43

/-- Length of np.arange(424.0, 448.1, 0.1) as the scripts compute the grid.
For float arguments the numpy arange uses length = ceil((stop - start) / step),
evaluated in binary64.  The subtraction fl(448.1) - 424 is exact (the result
needs at most 49 mantissa bits).  The exact rational quotient is
241 + 2.27e-13; the binary64 ulp at 241 is 2^-45 ≈ 2.84e-14, so the correctly
rounded binary64 quotient also lies strictly between 241 and 242 and the
ceiling below equals the one numpy computes, namely 242: the arange stop
value is overshot, the well-known arange float-step pitfall. -/
def arangeLen : ℕ := ⌈(f4481 - 424) / f01⌉₊

/-- The candidate calibration frequencies `np.arange(424.0, 448.1, 0.1)`:
numpy generates element i as start + i*step; the per-element binary64
roundings of the product and the sum (at most 2 ulp ≈ 1.2e-13 here) are
abstracted away, the grid length is `arangeLen`. -/
def candidates : List ℚ := (List.range arangeLen).map (fun i : ℕ => 424 + (i : ℚ) * f01)

/-- The note ladder of one candidate: entry of the `tones` dictionary of the
scripts, `tone_freq * frequency / 440.0` elementwise. -/
def tones (c : ℚ) : List ℚ := tone_freq.map (fun t => t * c / 440)

/-- The last (largest) grid candidate, `424.0 + 241 * fl(0.1)` ≈ 448.1. -/
def cMax : ℚ := 424 + 241 * f01

/-! ## Sample buffers (pydub collaborator model, mono) -/

/-- A decoded (mono) pydub sample buffer: samples plus frame rate. -/
structure Buffer where
  samples : List ℤ
  rate : ℕ
  deriving DecidableEq, Repr

/-- pydub `duration_seconds`: frame count / frame rate. -/
def Buffer.duration (b : Buffer) : ℚ := (b.samples.length : ℚ) / (b.rate : ℚ)

/-- pydub `AudioSegment.silent(duration=ms)` at frame rate `rate`:
the frame count is the truncating `int(frame_rate * (duration / 1000.0))`. -/
def silentSamples (rate ms : ℕ) : List ℤ := List.replicate (rate * ms / 1000) 0

/-- The padding step of `analyze_tone`: if the duration is below 101 s the
scripts append `AudioSegment.silent(duration=int((120 - duration) * 1000))`
(the Python `int` truncates; the operand is positive here, so `Int.toNat ∘
Int.floor` models it). -/
def padIfShort (b : Buffer) : Buffer :=
  if b.duration < 101 then
    { b with samples :=
        b.samples ++ silentSamples b.rate (Int.toNat ⌊(120 - b.duration) * 1000⌋) }
  else b

/-- The windowing step `audio[:100*1000].set_channels(1)`: pydub converts the
100000 ms slice bound to the frame index `int(100000 * (frame_rate / 1000.0))
= 100 * frame_rate`; a mono down-mix of the mono model buffer keeps the
samples. -/
def window100 (b : Buffer) : List ℤ := b.samples.take (100 * b.rate)

/-! ## Spectral Tuning Detector -/

/-- numpy `np.round`: round half to even, as the scripts apply it to
`tone / freqstep` before `.astype(int)`. -/
def npRound (x : ℚ) : ℤ :=
  if x - ⌊x⌋ < 1 / 2 then ⌊x⌋
  else if 1 / 2 < x - ⌊x⌋ then ⌊x⌋ + 1
  else if ⌊x⌋ % 2 = 0 then ⌊x⌋ else ⌊x⌋ + 1

/-- The ladder-frequency to FFT-bin mapping of the scripts:
`np.round(tone / freqstep).astype(int)` with `freqstep = sample_rate /
samples_len`, where `sample_rate` is the pre-padding frame rate and
`samples_len = N` is the window length. -/
def binIndex (rate N : ℕ) (tone : ℚ) : ℤ := npRound (tone / ((rate : ℚ) / (N : ℚ)))

/-- One read `fft_normed[i]` with numpy 1-D integer indexing semantics:
indices in `[0, len)` read directly, indices in `[-len, 0)` wrap once, and
anything else raises IndexError (modelled as `Except.error ()`).  The scripts
perform no bounds clamping. -/
def spectrumAt (xs : List ℚ) (i : ℤ) : Except Unit ℚ :=
  if 0 ≤ i ∧ i < (xs.length : ℤ) then Except.ok (xs.getD i.toNat 0)
  else if -(xs.length : ℤ) ≤ i ∧ i < 0 then Except.ok (xs.getD (i + xs.length).toNat 0)
  else Except.error ()

/-- The per-candidate score `np.sum(fft_normed[np.round(tone / freqstep)
.astype(int)])`: a sum over the 108 ladder bins of the candidate, raising whenever
any of the indexed reads is out of range. -/
def candidateScore (xs : List ℚ) (rate N : ℕ) (c : ℚ) : Except Unit ℚ :=
  (tones c).foldlM
    (fun acc t => (spectrumAt xs (binIndex rate N t)).map (fun v => acc + v)) 0

/-- The selection loop of `analyze_tone`: scan the candidates in arange
order starting from `max_sum = 0, max_freq = 0`, replacing the current best
only on a strictly greater score. -/
def selectTone (xs : List ℚ) (rate N : ℕ) : Except Unit ℚ :=
  (candidates.foldlM
    (fun (best : ℚ × ℚ) c => (candidateScore xs rate N c).map
      (fun s => if best.1 < s then (s, c) else best)) ((0 : ℚ), (0 : ℚ))).map Prod.snd

/-- The detector `analyze_tone`.  The FFT collaborator `fftMag` stands for
`np.abs(np.fft.fft(samples))` applied to the windowed samples; the script
then normalizes by `len(fft_result) = N` and runs the selection loop with
`freqstep = sample_rate / samples_len` built from the pre-padding rate. -/
def analyze_tone (fftMag : List ℤ → List ℚ) (song : Buffer) : Except Unit ℚ :=
  let audio := padIfShort song
  let w := window100 audio
  let N := w.length
  let fft_normed := (fftMag w).map (fun v => v / (N : ℚ))
  selectTone fft_normed song.rate N

/-- The score of a candidate as a plain rational (0 for the error case);
used to state selection properties once all reads are known in range. -/
def scoreOf (xs : List ℚ) (rate N : ℕ) (c : ℚ) : ℚ :=
  match candidateScore xs rate N c with
  | Except.ok v => v
  | Except.error _ => 0

/-- The selection loop stripped of the error monad: the exception-free
skeleton of the `max_sum / max_freq` scan, used to state what `selectTone`
computes once every read is known to be in range. -/
def selectPure (sc : ℚ → ℚ) (l : List ℚ) : ℚ × ℚ :=
  l.foldl (fun best c => if best.1 < sc c then (sc c, c) else best) ((0 : ℚ), (0 : ℚ))

/-! ## Pitch-Ratio Resampler -/

/-- The `_spawn(raw_data, overrides={"frame_rate": int(frame_rate * speed)})`
step of `speed_change`: same samples, frame rate reinterpreted with the Python
truncating `int` (the factor is nonnegative in every call site, so
`Int.toNat ∘ Int.floor` models the truncation). -/
def spawnWithRate (b : Buffer) (speed : ℚ) : Buffer :=
  { b with rate := Int.toNat ⌊(b.rate : ℚ) * speed⌋ }

/-- A deterministic sample-rate conversion kernel (nearest neighbour)
standing for audioop.ratecv inside the pydub `set_frame_rate`; the spec leaves
the interpolation kernel an implementation freedom, and no claim depends on
it. -/
def resampleNearest (samples : List ℤ) (src dst : ℕ) : List ℤ :=
  (List.range (samples.length * dst / src)).map (fun i => samples.getD (i * src / dst) 0)

/-- pydub `set_frame_rate`: returns the buffer unchanged when the target
rate already matches, otherwise rate-converts the samples. -/
def set_frame_rate (b : Buffer) (target : ℕ) : Buffer :=
  if target = b.rate then b
  else { samples := resampleNearest b.samples b.rate target, rate := target }

/-- The resampler `speed_change(sound, speed, target_sample_rate)` of the scripts. -/
def speed_change (sound : Buffer) (speed : ℚ) (target_sample_rate : ℕ) : Buffer :=
  set_frame_rate (spawnWithRate sound speed) target_sample_rate

/-! ## Conversion Orchestrator -/

/-- The file system seen by the orchestrator: an association list from path
to file contents; writes prepend, `List.lookup` reads the newest entry. -/
def FS : Type := List (String × String)

instance : DecidableEq FS := by unfold FS; infer_instance

/-- The `SUPPORTED_FORMATS` tuple of the scripts. -/
def SUPPORTED_FORMATS : List String :=
  [".mp3", ".wav", ".flac", ".aac", ".m4a", ".wma", ".ogg"]

/-- The Python `str.lower`,  restricted to what filenames use (charwise ASCII). -/
def pyLower (s : String) : String := ⟨s.data.map Char.toLower⟩

/-- Suffix test on character lists (the Python `str.endswith` for one
suffix). -/
def listEndsWith (s suffix : List Char) : Bool :=
  suffix.length ≤ s.length && (s.drop (s.length - suffix.length) == suffix)

/-- The check `input_file.lower().endswith(SUPPORTED_FORMATS)`: case-insensitive
suffix test against the tuple of supported extensions. -/
def supportedName (f : String) : Bool :=
  SUPPORTED_FORMATS.any (fun e => listEndsWith (pyLower f).data e.data)

/-- Split a character list at its LAST occurrence of `sep`:
`some (before, after)` when `sep` occurs, `none` otherwise. -/
def splitAtLastAux (sep : Char) : List Char → Option (List Char × List Char)
  | [] => none
  | c :: cs =>
    match splitAtLastAux sep cs with
    | some (l, r) => some (c :: l, r)
    | none => if c = sep then some ([], cs) else none

/-- Model of `os.path.split`: directory part and final component, splitting at the
last slash (for the non-root paths the scripts build). -/
def splitPath (p : String) : String × String :=
  match splitAtLastAux '/' p.data with
  | some (d, f) => (⟨d⟩, ⟨f⟩)
  | none => ("", p)

/-- The stem of `os.path.splitext`: everything before the final dot (the
name itself when it has no dot). -/
def splitExtStem (name : String) : String :=
  match splitAtLastAux '.' name.data with
  | some (stem, _) => ⟨stem⟩
  | none => name

/-- Model of `os.path.join` for the shapes the scripts produce. -/
def pathJoin (folder name : String) : String :=
  if folder = "" then name else folder ++ "/" ++ name

/-- The output path computed by `convert_to_432hz`:
`os.path.join(output_folder or folder, "432hz_" + stem + "." + fmt)`. -/
def outputPath (input : String) (outFolder : Option String) (fmt : String) : String :=
  let split := splitPath input
  pathJoin (outFolder.getD split.1) ("432hz_" ++ splitExtStem split.2 ++ "." ++ fmt)

/-- The orchestrator `convert_to_432hz` with the decode→detect→resample→encode pipeline
abstracted as the fallible `process` collaborator producing the bytes to
write.  The control flow follows the script: unsupported extension → return;
output exists → return; otherwise run the pipeline inside try/except, a
raised exception is caught and turns into a no-op on the file system. -/
def convert_to_432hz (process : FS → String → Except String String)
    (fs : FS) (input : String) (outFolder : Option String) (fmt : String) : FS :=
  if ¬ supportedName input then fs
  else
    let out := outputPath input outFolder fmt
    if (List.lookup out fs).isSome then fs
    else
      match process fs input with
      | Except.ok content => (out, content) :: fs
      | Except.error _ => fs

/-- The per-file loop shared by batch mode and the URL mode of `main`. -/
def batchFiles (process : FS → String → Except String String)
    (fs : FS) (inputs : List String) (outFolder : Option String) (fmt : String) : FS :=
  inputs.foldl (fun s f => convert_to_432hz process s f outFolder fmt) fs

/-- The directory filter of `batch_convert_directory`:
`f.lower().endswith(SUPPORTED_FORMATS) and not f.startswith("432hz_")`. -/
def files_to_convert (listing : List String) : List String :=
  listing.filter (fun f => supportedName f && !("432hz_".data.isPrefixOf f.data))

/-- The batch driver `batch_convert_directory`: filter the listing, then convert each
selected file at `os.path.join(directory, filename)` in order. -/
def batch_convert_directory (process : FS → String → Except String String)
    (fs : FS) (dir : String) (listing : List String)
    (outFolder : Option String) (fmt : String) : FS :=
  batchFiles process fs ((files_to_convert listing).map (pathJoin dir)) outFolder fmt

/-! ## The URL-download branch of main (temporary-directory lifecycle) -/

/-- Result of running a `main` branch: normal return or an uncaught
exception. -/
inductive Outcome where
  | ok : Outcome
  | raised : String → Outcome
  deriving DecidableEq, Repr

/-- Process-level state for the URL branch: whether the temporary download
directory exists, which files it holds, and the file system of outputs. -/
structure SysSt where
  tempExists : Bool
  tempFiles : List String
  fs : FS

/-- The `--youtube` branch of `main` in commandconverter432.py, with the
downloader as a fallible collaborator returning the downloaded file paths.
The source has no try/finally: an exception raised by the downloader
propagates before any cleanup runs, and `os.rmdir` raises (OSError) when
files other than the downloaded ones are still present. -/
def cc_main_youtube (download : SysSt → Except String (SysSt × List String))
    (process : FS → String → Except String String)
    (s0 : SysSt) (outFolder : Option String) (fmt : String) : Outcome × SysSt :=
  let s1 : SysSt := { s0 with tempExists := true }
  match download s1 with
  | Except.error e => (Outcome.raised e, s1)
  | Except.ok (s2, files) =>
    let s3 : SysSt := { s2 with fs := batchFiles process s2.fs files outFolder fmt }
    let s4 : SysSt := { s3 with tempFiles := s3.tempFiles.filter (fun f => !(files.contains f)) }
    if s4.tempFiles.isEmpty then (Outcome.ok, { s4 with tempExists := false })
    else (Outcome.raised "OSError: directory not empty", s4)

/-- The `--youtube` branch of `main` in converter.py: the download and
conversion run inside try/finally, and the finally block removes every file
of the temporary directory and the directory itself on every exit path,
re-raising an in-flight exception afterwards. -/
def conv_main_youtube (download : SysSt → Except String (SysSt × List String))
    (process : FS → String → Except String String)
    (s0 : SysSt) (outFolder : Option String) (fmt : String) : Outcome × SysSt :=
  let s1 : SysSt := { s0 with tempExists := true }
  let step : Outcome × SysSt :=
    match download s1 with
    | Except.error e => (Outcome.raised e, s1)
    | Except.ok (s2, files) =>
      (Outcome.ok, { s2 with fs := batchFiles process s2.fs files outFolder fmt })
  (step.1, { step.2 with tempFiles := [], tempExists := false })

/-! ## Helper lemmas: the candidate grid -/

theorem arangeLen_eq : arangeLen = 242 := by
  rw [arangeLen, Nat.ceil_eq_iff (by norm_num)]
  norm_num [f4481, f01]

theorem candidates_eq :
    candidates = (List.range 242).map (fun i : ℕ => 424 + (i : ℚ) * f01) := by
  rw [candidates, arangeLen_eq]

theorem candidates_length : candidates.length = 242 := by
  rw [candidates_eq, List.length_map, List.length_range]

theorem f01_pos : 0 < f01 := by norm_num [f01]

theorem cMax_gt_448 : 448 < cMax := by norm_num [cMax, f01]

theorem cMax_lt : cMax < 4482 / 10 := by norm_num [cMax, f01]

theorem cMax_mem_candidates : cMax ∈ candidates := by
  rw [candidates_eq]
  refine List.mem_map.mpr ⟨241, List.mem_range.mpr (by norm_num), by norm_num [cMax]⟩

theorem candidate_bounds {c : ℚ} (hc : c ∈ candidates) : 424 ≤ c ∧ c ≤ cMax := by
  simp only [candidates_eq, List.mem_map, List.mem_range] at hc
  obtain ⟨i, hi, rfl⟩ := hc
  have hi' : (i : ℚ) ≤ 241 := by exact_mod_cast Nat.lt_succ_iff.mp hi
  constructor
  · have : (0 : ℚ) ≤ (i : ℚ) * f01 :=
      mul_nonneg (by positivity) (le_of_lt f01_pos)
    linarith
  · have : (i : ℚ) * f01 ≤ 241 * f01 :=
      mul_le_mul_of_nonneg_right hi' (le_of_lt f01_pos)
    rw [cMax]; linarith

theorem tone_freq_length : tone_freq.length = 108 := by
  norm_num [tone_freq]

set_option maxHeartbeats 2000000 in
theorem tone_freq_bounds : ∀ t ∈ tone_freq, 0 < t ∧ t ≤ 790213 / 100 := by
  norm_num [tone_freq]

theorem last_tone_mem : (790213 / 100 : ℚ) ∈ tone_freq := by
  norm_num [tone_freq]

/-! ## Helper lemmas: numpy rounding and bin indices -/

theorem npRound_le (x : ℚ) : (npRound x : ℚ) ≤ x + 1 / 2 := by
  have h1 : (⌊x⌋ : ℚ) ≤ x := Int.floor_le x
  unfold npRound
  split_ifs with a b c <;> push_cast <;> linarith

theorem npRound_ge (x : ℚ) : x - 1 / 2 ≤ (npRound x : ℚ) := by
  have h2 : x - 1 < (⌊x⌋ : ℚ) := Int.sub_one_lt_floor x
  unfold npRound
  split_ifs with a b c <;> push_cast <;> linarith

theorem npRound_nonneg {x : ℚ} (hx : 0 ≤ x) : 0 ≤ npRound x := by
  by_contra h
  push_neg at h
  have h1 : npRound x ≤ -1 := by omega
  have h2 : (npRound x : ℚ) ≤ -1 := by exact_mod_cast h1
  have := npRound_ge x
  linarith

theorem binIndex_eq (rate : ℕ) (hr : 0 < rate) (tone : ℚ) :
    binIndex rate (100 * rate) tone = npRound (tone * 100) := by
  have hrq : (rate : ℚ) ≠ 0 := Nat.cast_ne_zero.mpr (Nat.pos_iff_ne_zero.mp hr)
  unfold binIndex
  congr 1
  push_cast
  field_simp
  ring

theorem binIndex_range {rate : ℕ} (hr : 8048 ≤ rate) {c : ℚ} (hc : c ∈ candidates)
    {t : ℚ} (ht : t ∈ tone_freq) :
    0 ≤ binIndex rate (100 * rate) (t * c / 440) ∧
      binIndex rate (100 * rate) (t * c / 440) < (100 * rate : ℤ) := by
  have hr0 : 0 < rate := lt_of_lt_of_le (by norm_num) hr
  rw [binIndex_eq rate hr0]
  obtain ⟨ht0, ht1⟩ := tone_freq_bounds t ht
  obtain ⟨hc0, hc1⟩ := candidate_bounds hc
  have hc0' : (0 : ℚ) ≤ c := le_trans (by norm_num) hc0
  constructor
  · apply npRound_nonneg
    have : 0 ≤ t * c := mul_nonneg (le_of_lt ht0) hc0'
    positivity
  · have key : t * c ≤ 790213 / 100 * cMax :=
      mul_le_mul ht1 hc1 hc0' (by norm_num)
    have hb : t * c / 440 * 100 + 1 / 2 < 804761 := by
      rw [cMax, f01] at key
      nlinarith
    have hub := npRound_le (t * c / 440 * 100)
    have hN : (804761 : ℚ) ≤ ((100 * rate : ℕ) : ℚ) := by
      have : (8048 : ℚ) ≤ (rate : ℚ) := by exact_mod_cast hr
      push_cast
      linarith
    have : (npRound (t * c / 440 * 100) : ℚ) < ((100 * rate : ℕ) : ℚ) := by linarith
    exact_mod_cast this

/-! ## Helper lemmas: spectrum reads and monadic folds -/

theorem spectrumAt_ok {xs : List ℚ} {i : ℤ} (h0 : 0 ≤ i) (h1 : i < (xs.length : ℤ)) :
    spectrumAt xs i = Except.ok (xs.getD i.toNat 0) := by
  unfold spectrumAt
  rw [if_pos ⟨h0, h1⟩]

theorem spectrumAt_error {xs : List ℚ} {i : ℤ} (h : (xs.length : ℤ) ≤ i) :
    spectrumAt xs i = Except.error () := by
  have hn : (0 : ℤ) ≤ (xs.length : ℤ) := by positivity
  unfold spectrumAt
  rw [if_neg (by omega), if_neg (by omega)]

theorem foldlM_map_error {β γ : Type} (u : γ → Except Unit ℚ) (w : β → γ → ℚ → β) :
    ∀ (l : List γ) (a : β), (∃ x ∈ l, u x = Except.error ()) →
      l.foldlM (fun acc x => (u x).map (w acc x)) a = Except.error () := by
  intro l
  induction l with
  | nil => intro a h; simp at h
  | cons y ys ih =>
    intro a h
    rw [List.foldlM_cons]
    cases hy : u y with
    | error e =>
      cases e
      rfl
    | ok v =>
      rcases h with ⟨x, hx, hux⟩
      rcases List.mem_cons.mp hx with rfl | hx'
      · rw [hy] at hux; exact absurd hux (by simp)
      · exact ih (w a y v) ⟨x, hx', hux⟩

theorem foldlM_map_ok {β γ : Type} (u : γ → Except Unit ℚ) (w : β → γ → ℚ → β)
    (uv : γ → ℚ) :
    ∀ (l : List γ) (a : β), (∀ x ∈ l, u x = Except.ok (uv x)) →
      l.foldlM (fun acc x => (u x).map (w acc x)) a
        = Except.ok (l.foldl (fun acc x => w acc x (uv x)) a) := by
  intro l
  induction l with
  | nil => intro a _; rfl
  | cons y ys ih =>
    intro a h
    rw [List.foldlM_cons]
    have hy : u y = Except.ok (uv y) := h y (List.mem_cons_self y ys)
    rw [hy, List.foldl_cons]
    exact ih (w a y (uv y)) (fun x hx => h x (List.mem_cons_of_mem y hx))

theorem scoreOf_eq_of_ok {xs : List ℚ} {rate N : ℕ} {c v : ℚ}
    (h : candidateScore xs rate N c = Except.ok v) : scoreOf xs rate N c = v := by
  unfold scoreOf
  rw [h]

theorem candidateScore_ok {xs : List ℚ} {rate N : ℕ} {c : ℚ}
    (h : ∀ t ∈ tones c, 0 ≤ binIndex rate N t ∧ binIndex rate N t < (xs.length : ℤ)) :
    candidateScore xs rate N c
      = Except.ok ((tones c).foldl
          (fun acc t => acc + xs.getD (binIndex rate N t).toNat 0) 0) := by
  unfold candidateScore
  exact foldlM_map_ok _ _ (fun t => xs.getD (binIndex rate N t).toNat 0) _ _
    (fun t ht => spectrumAt_ok (h t ht).1 (h t ht).2)

theorem candidateScore_error {xs : List ℚ} {rate N : ℕ} {c : ℚ}
    (h : ∃ t ∈ tones c, (xs.length : ℤ) ≤ binIndex rate N t) :
    candidateScore xs rate N c = Except.error () := by
  unfold candidateScore
  exact foldlM_map_error _ _ _ _
    (h.imp (fun t ht => ⟨ht.1, spectrumAt_error ht.2⟩))

theorem selectTone_eq {xs : List ℚ} {rate N : ℕ}
    (h : ∀ c ∈ candidates, ∃ v, candidateScore xs rate N c = Except.ok v) :
    selectTone xs rate N = Except.ok (selectPure (scoreOf xs rate N) candidates).2 := by
  unfold selectTone selectPure
  rw [foldlM_map_ok (fun c => candidateScore xs rate N c)
    (fun best c s => if best.1 < s then (s, c) else best) (scoreOf xs rate N) _ _
    (fun c hc => by
      obtain ⟨v, hv⟩ := h c hc
      show candidateScore xs rate N c = Except.ok (scoreOf xs rate N c)
      rw [scoreOf_eq_of_ok hv]
      exact hv)]
  rfl

theorem selectTone_error {xs : List ℚ} {rate N : ℕ}
    (h : ∃ c ∈ candidates, candidateScore xs rate N c = Except.error ()) :
    selectTone xs rate N = Except.error () := by
  unfold selectTone
  rw [foldlM_map_error (fun c => candidateScore xs rate N c)
    (fun best c s => if best.1 < s then (s, c) else best) _ _ h]
  rfl

/-! ## Helper lemmas: the selection scan -/

theorem foldl_max_init_le (sc : ℚ → ℚ) :
    ∀ (l : List ℚ) (m : ℚ), m ≤ l.foldl (fun m c => max m (sc c)) m := by
  intro l
  induction l with
  | nil => intro m; exact le_refl m
  | cons c cs ih =>
    intro m
    rw [List.foldl_cons]
    exact le_trans (le_max_left m (sc c)) (ih (max m (sc c)))

theorem foldl_max_mem_le (sc : ℚ → ℚ) :
    ∀ (l : List ℚ) (m : ℚ) (x : ℚ), x ∈ l →
      sc x ≤ l.foldl (fun m c => max m (sc c)) m := by
  intro l
  induction l with
  | nil => intro m x hx; simp at hx
  | cons c cs ih =>
    intro m x hx
    rw [List.foldl_cons]
    rcases List.mem_cons.mp hx with rfl | hx'
    · exact le_trans (le_max_right m (sc x)) (foldl_max_init_le sc cs _)
    · exact ih _ x hx'

theorem selectPure_invariant (sc : ℚ → ℚ) :
    ∀ (l : List ℚ) (b : ℚ × ℚ),
      (l.foldl (fun best c => if best.1 < sc c then (sc c, c) else best) b).1
          = l.foldl (fun m c => max m (sc c)) b.1
      ∧ (¬ b.1 < (l.foldl (fun best c => if best.1 < sc c then (sc c, c) else best) b).1
          → l.foldl (fun best c => if best.1 < sc c then (sc c, c) else best) b = b)
      ∧ (b.1 < (l.foldl (fun best c => if best.1 < sc c then (sc c, c) else best) b).1
          → ∃ pre post,
              l = pre
                ++ (l.foldl (fun best c => if best.1 < sc c then (sc c, c) else best) b).2
                  :: post
              ∧ sc ((l.foldl (fun best c => if best.1 < sc c then (sc c, c) else best) b).2)
                  = (l.foldl (fun best c => if best.1 < sc c then (sc c, c) else best) b).1
              ∧ ∀ c ∈ pre,
                  sc c
                    < (l.foldl (fun best c => if best.1 < sc c then (sc c, c) else best) b).1) := by
  intro l
  induction l with
  | nil =>
    intro b
    refine ⟨rfl, fun _ => rfl, fun h => absurd h (lt_irrefl _)⟩
  | cons c cs ih =>
    intro b
    simp only [List.foldl_cons]
    set b2 := if b.1 < sc c then (sc c, c) else b with hb2def
    obtain ⟨ih1, ih2, ih3⟩ := ih b2
    have hb1 : b2.1 = max b.1 (sc c) := by
      rw [hb2def]
      by_cases h : b.1 < sc c
      · rw [if_pos h, max_eq_right (le_of_lt h)]
      · rw [if_neg h, max_eq_left (not_lt.mp h)]
    have hscle : sc c ≤ b2.1 := by
      rw [hb1]; exact le_max_right _ _
    refine ⟨by rw [ih1, hb1], ?_, ?_⟩
    · intro hnb
      have hinit := foldl_max_init_le sc cs b2.1
      rw [← ih1] at hinit
      have hbeq : b2 = b := by
        rw [hb2def]
        by_cases h : b.1 < sc c
        · exact absurd (lt_of_lt_of_le (lt_of_lt_of_le h hscle) hinit) hnb
        · rw [if_neg h]
      rw [hbeq] at ih2 hnb ⊢
      exact ih2 hnb
    · intro hlt
      by_cases h : b2.1
          < (cs.foldl (fun best c => if best.1 < sc c then (sc c, c) else best) b2).1
      · obtain ⟨pre, post, hsplit, hsc, hpre⟩ := ih3 h
        refine ⟨c :: pre, post, congrArg (List.cons c) hsplit, hsc, ?_⟩
        intro y hy
        rcases List.mem_cons.mp hy with rfl | hy'
        · exact lt_of_le_of_lt hscle h
        · exact hpre y hy'
      · have hr := ih2 h
        rw [hr] at hlt ⊢
        have hc : b.1 < sc c := by
          by_contra hc
          rw [hb2def, if_neg hc] at hlt
          exact absurd hlt (lt_irrefl _)
        rw [hb2def, if_pos hc] at hlt ⊢
        exact ⟨[], cs, rfl, rfl, by intro y hy; simp at hy⟩

theorem selectPure_all_zero (sc : ℚ → ℚ) (l : List ℚ) (h : ∀ c ∈ l, sc c = 0) :
    selectPure sc l = (0, 0) := by
  have hmax : l.foldl (fun m c => max m (sc c)) 0 = 0 := by
    induction l with
    | nil => rfl
    | cons c cs ih =>
      rw [List.foldl_cons, h c (List.mem_cons_self c cs), max_self]
      exact ih (fun x hx => h x (List.mem_cons_of_mem c hx))
  obtain ⟨h1, h2, _⟩ := selectPure_invariant sc l ((0 : ℚ), (0 : ℚ))
  exact h2 (by rw [h1]; simp [hmax])

/-! ## Helper lemmas: padding and windowing -/

theorem padIfShort_rate (b : Buffer) : (padIfShort b).rate = b.rate := by
  unfold padIfShort
  split <;> rfl

theorem padIfShort_samples_ge (b : Buffer) (hr : 0 < b.rate) :
    100 * b.rate ≤ (padIfShort b).samples.length := by
  have hRq : (0 : ℚ) < (b.rate : ℚ) := by exact_mod_cast hr
  unfold padIfShort
  split_ifs with hdur
  · simp only [List.length_append, silentSamples, List.length_replicate]
    rw [Buffer.duration] at hdur
    by_cases hF : 100 * b.rate ≤ b.samples.length
    · omega
    · push_neg at hF
      set R := b.rate with hRdef
      set F := b.samples.length with hFdef
      set q : ℚ := (120 - (F : ℚ) / (R : ℚ)) * 1000 with hqdef
      have hq : (19000 : ℚ) < q := by
        rw [hqdef]
        have hexp : (120 - (F : ℚ) / R) * 1000 = 120000 - ((F : ℚ) / R) * 1000 := by ring
        rw [hexp]
        have : ((F : ℚ) / R) * 1000 < 101 * 1000 := by
          apply mul_lt_mul_of_pos_right hdur
          norm_num
        linarith
      set P := Int.toNat ⌊(120 - Buffer.duration b) * 1000⌋ with hPdef
      have hqb : (120 - Buffer.duration b) * 1000 = q := by
        rw [Buffer.duration, hqdef]
      have hflq : ⌊(120 - Buffer.duration b) * 1000⌋ = ⌊q⌋ := by rw [hqb]
      have hfl0 : (0 : ℤ) ≤ ⌊q⌋ := Int.floor_nonneg.mpr (by linarith)
      have hPfl : P = Int.toNat ⌊q⌋ := by rw [hPdef, hflq]
      have hPq : q - 1 < (P : ℚ) := by
        have h1 := Int.sub_one_lt_floor q
        have h2 : ((P : ℕ) : ℚ) = ((⌊q⌋ : ℤ) : ℚ) := by
          rw [hPfl]
          exact_mod_cast Int.toNat_of_nonneg hfl0
        rw [h2]
        linarith
      have hkey : (1000 : ℚ) * (100 * R) < 1000 * F + R * P := by
        have h1 : (R : ℚ) * (q - 1) < R * P :=
          mul_lt_mul_of_pos_left hPq hRq
        have h2 : (R : ℚ) * (q - 1) = 120000 * R - 1000 * F - R := by
          rw [hqdef]
          field_simp
          ring
        have hR1 : (1 : ℚ) ≤ (R : ℚ) := by exact_mod_cast hr
        nlinarith
      have hkeyN : 1000 * (100 * R) < 1000 * F + R * P := by exact_mod_cast hkey
      set RP := R * P with hRPdef
      omega
  · push_neg at hdur
    rw [Buffer.duration] at hdur
    have h1 : (101 : ℚ) * (b.rate : ℚ) ≤ (b.samples.length : ℚ) := by
      rw [le_div_iff hRq] at hdur
      exact hdur
    have h2 : 101 * b.rate ≤ b.samples.length := by exact_mod_cast h1
    omega

theorem window100_padIfShort_length (b : Buffer) (hr : 0 < b.rate) :
    (window100 (padIfShort b)).length = 100 * b.rate := by
  unfold window100
  rw [List.length_take, padIfShort_rate]
  exact Nat.min_eq_left (padIfShort_samples_ge b hr)

theorem padIfShort_exact (R d : ℕ) (s : List ℤ) (hR : 0 < R) (hd : d < 101)
    (hs : s.length = R * d) :
    (padIfShort ⟨s, R⟩).duration = 120 := by
  have hRq : (0 : ℚ) < (R : ℚ) := by exact_mod_cast hR
  have hd120 : d ≤ 120 := by omega
  have hdval : (Buffer.mk s R).duration = (d : ℚ) := by
    rw [Buffer.duration]
    simp only [hs]
    push_cast
    rw [mul_comm]
    exact mul_div_cancel_right₀ (d : ℚ) (ne_of_gt hRq)
  have hcast : ((((120 - d) * 1000 : ℕ)) : ℚ) = (120 - (d : ℚ)) * 1000 := by
    rw [Nat.cast_mul, Nat.cast_sub hd120]
    norm_num
  have hpad : Int.toNat ⌊(120 - (Buffer.mk s R).duration) * 1000⌋ = (120 - d) * 1000 := by
    rw [hdval, ← hcast, Int.floor_natCast]
    omega
  unfold padIfShort
  rw [if_pos (by rw [hdval]; exact_mod_cast hd)]
  rw [Buffer.duration]
  simp only [List.length_append, hs, silentSamples, List.length_replicate, hpad]
  have hsil : R * ((120 - d) * 1000) / 1000 = R * (120 - d) := by
    rw [show R * ((120 - d) * 1000) = R * (120 - d) * 1000 from by ring]
    exact Nat.mul_div_cancel _ (by norm_num)
  rw [hsil]
  push_cast [Nat.cast_sub hd120]
  field_simp
  ring

/-! ## Claim C4 -/

/-- C4, counterexample.  The claim says the Candidate Grid Builder produces
exactly 241 distinct candidates covering the closed interval [424.0, 448.0].
In the scripts the grid is np.arange(424.0, 448.1, 0.1), whose binary64
length computation yields 242 entries (the arange endpoint-overshoot
pitfall), and the last entry 424 + 241·fl(0.1) ≈ 448.1 exceeds 448.0. -/
theorem candidate_grid_not_241 :
    candidates.length ≠ 241 ∧ candidates.length = 242 ∧ cMax ∈ candidates ∧ 448 < cMax :=
  ⟨by rw [candidates_length]; norm_num, candidates_length, cMax_mem_candidates, cMax_gt_448⟩

/-- C4 (amended).  The Candidate Grid has exactly 242 distinct (strictly
increasing) candidate frequencies, generated as 424.0 + i·fl(0.1) for i in
0..241 by integer step index, spanning from 424.0 up to ≈448.1 (strictly
above 448.0 but below 448.2); each candidate ladder is the canonical
108-entry 440 Hz ladder multiplied elementwise by candidate / 440. -/
theorem candidate_grid_amended :
    candidates.length = 242 ∧
      candidates = (List.range 242).map (fun i : ℕ => 424 + (i : ℚ) * f01) ∧
      List.Pairwise (· < ·) candidates ∧
      (424 : ℚ) ∈ candidates ∧ cMax ∈ candidates ∧ 448 < cMax ∧ cMax < 4482 / 10 ∧
      (∀ c ∈ candidates, 424 ≤ c ∧ c ≤ cMax) ∧
      (∀ c : ℚ, (tones c).length = 108 ∧
        ∀ i < 108, (tones c).getD i 0 = tone_freq.getD i 0 * c / 440) := by
  refine ⟨candidates_length, candidates_eq, ?_, ?_, cMax_mem_candidates, cMax_gt_448,
    cMax_lt, fun c hc => candidate_bounds hc, fun c => ⟨?_, ?_⟩⟩
  · rw [candidates_eq]
    rw [List.pairwise_map]
    refine (List.pairwise_lt_range 242).imp ?_
    intro i j hij
    have : (i : ℚ) < (j : ℚ) := by exact_mod_cast hij
    have := mul_lt_mul_of_pos_right this f01_pos
    linarith
  · rw [candidates_eq]
    exact List.mem_map.mpr ⟨0, List.mem_range.mpr (by norm_num), by norm_num⟩
  · rw [tones, List.length_map, tone_freq_length]
  · intro i hi
    have hlen : i < tone_freq.length := by rw [tone_freq_length]; exact hi
    rw [tones]
    rw [List.getD_eq_getElem?_getD, List.getD_eq_getElem?_getD,
      List.getElem?_map, List.getElem?_eq_getElem hlen]
    rfl

/-- C4 (amended), witness: the amended grid facts instantiated at the last
candidate and at ladder position 107. -/
theorem candidate_grid_amended_witness :
    candidates.length = 242 ∧ (424 ≤ cMax ∧ cMax ≤ cMax) ∧
      (tones cMax).getD 107 0 = tone_freq.getD 107 0 * cMax / 440 :=
  ⟨candidate_grid_amended.1,
    candidate_grid_amended.2.2.2.2.2.2.2.1 cMax cMax_mem_candidates,
    (candidate_grid_amended.2.2.2.2.2.2.2.2 cMax).2 107 (by norm_num)⟩

/-! ## Claim C3 -/

/-- C3, counterexample.  The claim says every input shorter than 101 s is
padded so that the total duration is exactly 120 s.  For a buffer of
3528001 frames at 44100 Hz (duration ≈ 80.0000227 s, not a whole number of
milliseconds), pad_ms = int((120 − duration)·1000) truncates to 39999 ms and
the silence generator truncates again to 1763955 frames, so the padded
buffer has 5291956 frames — duration 5291956/44100 ≠ 120 s. -/
theorem padding_not_exactly_120s :
    Buffer.duration ⟨List.replicate 3528001 0, 44100⟩ < 101 ∧
      Buffer.duration (padIfShort ⟨List.replicate 3528001 0, 44100⟩) ≠ 120 := by
  have hdur : (Buffer.mk (List.replicate 3528001 (0 : ℤ)) 44100).duration
      = 3528001 / 44100 := by
    rw [Buffer.duration, List.length_replicate]
    norm_num
  have hfl : ⌊(120 - (3528001 : ℚ) / 44100) * 1000⌋ = 39999 := by
    rw [Int.floor_eq_iff]
    norm_num
  constructor
  · rw [hdur]; norm_num
  · unfold padIfShort
    rw [if_pos (by rw [hdur]; norm_num)]
    rw [Buffer.duration]
    simp only [List.length_append, List.length_replicate, silentSamples, hdur, hfl]
    have ht : Int.toNat 39999 = 39999 := rfl
    rw [ht]
    have hv : 44100 * 39999 / 1000 = 1763955 := by norm_num
    rw [hv]
    norm_num

/-- C3 (amended).  The transform length always equals the sample count of
the first-100-second window at the native rate (N = 100·rate); when the
duration is short the buffer is padded to approximately (not exactly) 120 s
— exactly 120 s whenever the duration is a whole number of seconds — and a
buffer with duration ≥ 101 s is used unmodified. -/
theorem analyze_padding_amended (b : Buffer) (hr : 0 < b.rate) :
    (window100 (padIfShort b)).length = 100 * b.rate ∧
      (∀ d : ℕ, d < 101 → b.samples.length = b.rate * d →
        (padIfShort b).duration = 120) ∧
      (¬ b.duration < 101 → padIfShort b = b) := by
  refine ⟨window100_padIfShort_length b hr, ?_, ?_⟩
  · intro d hd hs
    exact padIfShort_exact b.rate d b.samples hr hd hs
  · intro h
    unfold padIfShort
    rw [if_neg h]

/-- C3 (amended), witness: an 80 s buffer at 10 Hz is padded to exactly
120 s and windowed to N = 1000 samples. -/
theorem analyze_padding_amended_witness :
    (window100 (padIfShort ⟨List.replicate 800 0, 10⟩)).length = 100 * 10 ∧
      (padIfShort ⟨List.replicate 800 0, 10⟩).duration = 120 :=
  ⟨(analyze_padding_amended ⟨List.replicate 800 0, 10⟩ (by norm_num)).1,
    (analyze_padding_amended ⟨List.replicate 800 0, 10⟩ (by norm_num)).2.1 80
      (by norm_num) (by norm_num [List.length_replicate])⟩

/-! ## Claims C5 and C6 -/

theorem floor_ratio_44100 : ⌊((44100 : ℕ) : ℚ) * (432 / 445)⌋ = (42811 : ℤ) := by
  have hc : ((44100 : ℕ) : ℚ) = (44100 : ℚ) := by norm_num
  rw [hc, Int.floor_eq_iff]
  norm_num

/-- C5, counterexample.  The claim says the resampler reinterprets the rate
as native_rate · ratio so the resulting duration equals exactly
original_duration / ratio.  The script computes the reinterpreted rate with
a truncating int(): for a 1 s buffer at 44100 Hz and ratio 432/445, the new
rate is int(44100·432/445) = 42811 (not 42811.685…), giving duration
44100/42811 ≠ 445/432 = original/ratio. -/
theorem speed_change_duration_not_exact :
    Buffer.duration (speed_change ⟨List.replicate 44100 0, 44100⟩ (432 / 445) 42811)
      ≠ Buffer.duration ⟨List.replicate 44100 0, 44100⟩ / (432 / 445) := by
  have htn : Int.toNat (42811 : ℤ) = 42811 := rfl
  simp only [speed_change, spawnWithRate, set_frame_rate, floor_ratio_44100, htn,
    Buffer.duration, List.length_replicate]
  norm_num

/-- C5 (amended).  speed_change reinterprets the rate as the truncation
int(native_rate · ratio) without altering the samples; with the target rate
equal to that reinterpreted rate the resulting duration is
frames / int(native_rate · ratio), which is at least original_duration /
ratio (instead of exactly equal), and for ratio < 1 the result is strictly
longer than the original. -/
theorem speed_change_quantized (b : Buffer) (speed : ℚ) (hs : 0 < speed)
    (hr2 : 0 < Int.toNat ⌊(b.rate : ℚ) * speed⌋) :
    (spawnWithRate b speed).samples = b.samples ∧
      (spawnWithRate b speed).rate = Int.toNat ⌊(b.rate : ℚ) * speed⌋ ∧
      speed_change b speed (Int.toNat ⌊(b.rate : ℚ) * speed⌋) = spawnWithRate b speed ∧
      Buffer.duration (speed_change b speed (Int.toNat ⌊(b.rate : ℚ) * speed⌋))
        = (b.samples.length : ℚ) / ((Int.toNat ⌊(b.rate : ℚ) * speed⌋ : ℕ) : ℚ) ∧
      Buffer.duration b / speed
        ≤ Buffer.duration (speed_change b speed (Int.toNat ⌊(b.rate : ℚ) * speed⌋)) ∧
      (speed < 1 → b.samples.length ≠ 0 →
        Buffer.duration b
          < Buffer.duration (speed_change b speed (Int.toNat ⌊(b.rate : ℚ) * speed⌋))) := by
  have heq : speed_change b speed (Int.toNat ⌊(b.rate : ℚ) * speed⌋) = spawnWithRate b speed := by
    unfold speed_change set_frame_rate
    exact if_pos rfl
  have hR : 0 < b.rate := by
    rcases Nat.eq_zero_or_pos b.rate with h0 | h
    · rw [h0] at hr2
      simp at hr2
    · exact h
  have hRq : (0 : ℚ) < (b.rate : ℚ) := by exact_mod_cast hR
  have hr2q : (0 : ℚ) < ((Int.toNat ⌊(b.rate : ℚ) * speed⌋ : ℕ) : ℚ) := by exact_mod_cast hr2
  have hfl0 : (0 : ℤ) ≤ ⌊(b.rate : ℚ) * speed⌋ :=
    Int.floor_nonneg.mpr (by positivity)
  have hle : ((Int.toNat ⌊(b.rate : ℚ) * speed⌋ : ℕ) : ℚ) ≤ (b.rate : ℚ) * speed := by
    have h1 := Int.floor_le ((b.rate : ℚ) * speed)
    have hcast : ((Int.toNat ⌊(b.rate : ℚ) * speed⌋ : ℕ) : ℚ)
        = ((⌊(b.rate : ℚ) * speed⌋ : ℤ) : ℚ) := by
      exact_mod_cast Int.toNat_of_nonneg hfl0
    rw [hcast]
    exact h1
  have hdur : Buffer.duration (speed_change b speed (Int.toNat ⌊(b.rate : ℚ) * speed⌋))
      = (b.samples.length : ℚ) / ((Int.toNat ⌊(b.rate : ℚ) * speed⌋ : ℕ) : ℚ) := by
    rw [heq]
    rfl
  refine ⟨rfl, rfl, heq, hdur, ?_, ?_⟩
  · rw [hdur, Buffer.duration, div_div]
    rw [div_le_div_iff (by positivity) hr2q]
    exact mul_le_mul_of_nonneg_left hle (by positivity)
  · intro hs1 hF
    rw [hdur, Buffer.duration]
    have hFq : (0 : ℚ) < (b.samples.length : ℚ) := by
      have : 0 < b.samples.length := Nat.pos_of_ne_zero hF
      exact_mod_cast this
    have hr2R : ((Int.toNat ⌊(b.rate : ℚ) * speed⌋ : ℕ) : ℚ) < (b.rate : ℚ) :=
      lt_of_le_of_lt hle (by nlinarith)
    exact div_lt_div_of_pos_left hFq hr2q hr2R

/-- C5 (amended), witness: the quantized-rate facts instantiated on a 1 s
buffer at 44100 Hz with ratio 432/445 (reinterpreted rate 42811). -/
theorem speed_change_quantized_witness :
    (spawnWithRate ⟨List.replicate 44100 0, 44100⟩ (432 / 445)).samples
        = (Buffer.mk (List.replicate 44100 0) 44100).samples ∧
      Buffer.duration (Buffer.mk (List.replicate 44100 0) 44100) / (432 / 445)
        ≤ Buffer.duration (speed_change ⟨List.replicate 44100 0, 44100⟩ (432 / 445)
            (Int.toNat ⌊((Buffer.mk (List.replicate 44100 0) 44100).rate : ℚ) * (432 / 445)⌋)) ∧
      Buffer.duration (Buffer.mk (List.replicate 44100 0) 44100)
        < Buffer.duration (speed_change ⟨List.replicate 44100 0, 44100⟩ (432 / 445)
            (Int.toNat ⌊((Buffer.mk (List.replicate 44100 0) 44100).rate : ℚ) * (432 / 445)⌋)) :=
  ⟨(speed_change_quantized ⟨List.replicate 44100 0, 44100⟩ (432 / 445) (by norm_num)
      (by rw [show ((Buffer.mk (List.replicate 44100 0) 44100).rate : ℚ) = ((44100 : ℕ) : ℚ)
            from rfl, floor_ratio_44100]; norm_num)).1,
    (speed_change_quantized ⟨List.replicate 44100 0, 44100⟩ (432 / 445) (by norm_num)
      (by rw [show ((Buffer.mk (List.replicate 44100 0) 44100).rate : ℚ) = ((44100 : ℕ) : ℚ)
            from rfl, floor_ratio_44100]; norm_num)).2.2.2.2.1,
    (speed_change_quantized ⟨List.replicate 44100 0, 44100⟩ (432 / 445) (by norm_num)
      (by rw [show ((Buffer.mk (List.replicate 44100 0) 44100).rate : ℚ) = ((44100 : ℕ) : ℚ)
            from rfl, floor_ratio_44100]; norm_num)).2.2.2.2.2 (by norm_num)
      (by norm_num [List.length_replicate])⟩

/-- C6 (confirmed).  With ratio 1.0 and target sample rate equal to the
native rate, speed_change is the identity transform: the output buffer
(samples and rate) equals the input buffer. -/
theorem speed_change_identity (b : Buffer) : speed_change b 1 b.rate = b := by
  have h : Int.toNat ⌊((b.rate : ℚ)) * 1⌋ = b.rate := by
    rw [mul_one, Int.floor_natCast]
    exact Int.toNat_natCast b.rate
  simp [speed_change, spawnWithRate, set_frame_rate, h]

/-! ## Helper lemmas: per-file conversion control flow -/

theorem convert_unsupported {process : FS → String → Except String String}
    {fs : FS} {input : String} {outFolder : Option String} {fmt : String}
    (h : supportedName input = false) :
    convert_to_432hz process fs input outFolder fmt = fs := by
  simp only [convert_to_432hz, h]
  rfl

theorem convert_exists {process : FS → String → Except String String}
    {fs : FS} {input : String} {outFolder : Option String} {fmt : String}
    (hsup : supportedName input = true)
    (h : (List.lookup (outputPath input outFolder fmt) fs).isSome = true) :
    convert_to_432hz process fs input outFolder fmt = fs := by
  simp only [convert_to_432hz, hsup, h]
  rfl

theorem convert_ok {process : FS → String → Except String String}
    {fs : FS} {input : String} {outFolder : Option String} {fmt : String} {content : String}
    (hsup : supportedName input = true)
    (h : (List.lookup (outputPath input outFolder fmt) fs).isSome = false)
    (hp : process fs input = Except.ok content) :
    convert_to_432hz process fs input outFolder fmt
      = (outputPath input outFolder fmt, content) :: fs := by
  simp only [convert_to_432hz, hsup, h, hp]
  rfl

theorem convert_error {process : FS → String → Except String String}
    {fs : FS} {input : String} {outFolder : Option String} {fmt : String} {e : String}
    (hsup : supportedName input = true)
    (h : (List.lookup (outputPath input outFolder fmt) fs).isSome = false)
    (hp : process fs input = Except.error e) :
    convert_to_432hz process fs input outFolder fmt = fs := by
  simp only [convert_to_432hz, hsup, h, hp]
  rfl

/-! ## Claim C7 -/

/-- C7 (confirmed).  When the computed output path already exists in the
file system, convert_to_432hz is a no-op and never overwrites the existing
entry; and converting the same input twice equals converting it once (the
second run skips). -/
theorem convert_to_432hz_idempotent (process : FS → String → Except String String)
    (fs : FS) (input : String) (outFolder : Option String) (fmt : String) :
    convert_to_432hz process (convert_to_432hz process fs input outFolder fmt) input outFolder fmt
        = convert_to_432hz process fs input outFolder fmt ∧
      (∀ c : String, List.lookup (outputPath input outFolder fmt) fs = some c →
        convert_to_432hz process fs input outFolder fmt = fs ∧
        List.lookup (outputPath input outFolder fmt)
            (convert_to_432hz process fs input outFolder fmt) = some c) := by
  constructor
  · cases hsup : supportedName input with
    | false => rw [convert_unsupported hsup, convert_unsupported hsup]
    | true =>
      cases hex : (List.lookup (outputPath input outFolder fmt) fs).isSome with
      | true => rw [convert_exists hsup hex, convert_exists hsup hex]
      | false =>
        cases hp : process fs input with
        | ok content =>
          rw [convert_ok hsup hex hp]
          apply convert_exists hsup
          simp [List.lookup]
        | error e => rw [convert_error hsup hex hp, convert_error hsup hex hp]
  · intro c hc
    have hex : (List.lookup (outputPath input outFolder fmt) fs).isSome = true := by
      rw [hc]
      rfl
    cases hsup : supportedName input with
    | false =>
      exact ⟨convert_unsupported hsup, by rw [convert_unsupported hsup]; exact hc⟩
    | true =>
      exact ⟨convert_exists hsup hex, by rw [convert_exists hsup hex]; exact hc⟩

/-- C7, witness: a file system already holding 432hz_a.mp3 is untouched by
converting a.mp3 again, and the stored contents survive. -/
theorem convert_to_432hz_idempotent_witness :
    convert_to_432hz (fun _ _ => Except.ok "bytes") [("432hz_a.mp3", "orig")] "a.mp3" none "mp3"
        = [("432hz_a.mp3", "orig")] ∧
      List.lookup (outputPath "a.mp3" none "mp3")
          (convert_to_432hz (fun _ _ => Except.ok "bytes") [("432hz_a.mp3", "orig")]
            "a.mp3" none "mp3")
        = some "orig" :=
  ⟨((convert_to_432hz_idempotent (fun _ _ => Except.ok "bytes") [("432hz_a.mp3", "orig")]
      "a.mp3" none "mp3").2 "orig" (by decide)).1,
    ((convert_to_432hz_idempotent (fun _ _ => Except.ok "bytes") [("432hz_a.mp3", "orig")]
      "a.mp3" none "mp3").2 "orig" (by decide)).2⟩

/-! ## Claim C8 -/

/-- C8 (confirmed).  Batch mode selects exactly the listed names that carry
a supported extension (checked case-insensitively on the name) and that do
not begin with the prefix 432hz_; in particular no selected file starts
with 432hz_. -/
theorem batch_filter_spec (listing : List String) (f : String) :
    (f ∈ files_to_convert listing ↔
      f ∈ listing
        ∧ (∃ e ∈ SUPPORTED_FORMATS, listEndsWith (pyLower f).data e.data = true)
        ∧ ¬ ("432hz_".data.isPrefixOf f.data = true)) ∧
      (f ∈ files_to_convert listing → ¬ ("432hz_".data.isPrefixOf f.data = true)) := by
  have hmain : f ∈ files_to_convert listing ↔
      f ∈ listing
        ∧ (∃ e ∈ SUPPORTED_FORMATS, listEndsWith (pyLower f).data e.data = true)
        ∧ ¬ ("432hz_".data.isPrefixOf f.data = true) := by
    rw [files_to_convert, List.mem_filter]
    simp [supportedName, List.any_eq_true, List.isPrefixOf_iff_prefix]
    intro _ _ _ _
    rw [← Bool.not_eq_true]
    exact not_congr List.isPrefixOf_iff_prefix
  exact ⟨hmain, fun hf => (hmain.mp hf).2.2⟩

/-- C8, witness: the filter facts instantiated on a concrete listing. -/
theorem batch_filter_spec_witness :
    ¬ ("432hz_".data.isPrefixOf "a.mp3".data = true) :=
  (batch_filter_spec ["a.mp3"] "a.mp3").2 (by decide)

/-! ## Claim C9 -/

/-- C9 (confirmed).  A per-file pipeline failure (decode, detect, resample
or encode raising) is caught inside convert_to_432hz: the file system is
left unchanged (a logged skip) and a batch run over the remaining files is
exactly the batch run without the failing file — no exception propagates
out of the per-file boundary and no single-file failure aborts the batch. -/
theorem convert_error_skip_batch_continues (process : FS → String → Except String String)
    (input : String) (h : ∀ s : FS, ∃ e, process s input = Except.error e) :
    (∀ (fs : FS) (outFolder : Option String) (fmt : String),
        convert_to_432hz process fs input outFolder fmt = fs) ∧
      (∀ (fs : FS) (outFolder : Option String) (fmt : String) (pre post : List String),
        batchFiles process fs (pre ++ input :: post) outFolder fmt
          = batchFiles process fs (pre ++ post) outFolder fmt) := by
  have hconv : ∀ (fs : FS) (outFolder : Option String) (fmt : String),
      convert_to_432hz process fs input outFolder fmt = fs := by
    intro fs oF fmt
    cases hsup : supportedName input with
    | false => exact convert_unsupported hsup
    | true =>
      cases hex : (List.lookup (outputPath input oF fmt) fs).isSome with
      | true => exact convert_exists hsup hex
      | false =>
        obtain ⟨e, he⟩ := h fs
        exact convert_error hsup hex he
  refine ⟨hconv, ?_⟩
  intro fs oF fmt pre post
  rw [batchFiles, batchFiles]
  simp only [List.foldl_append, List.foldl_cons]
  rw [hconv]

/-- C9, witness: a pipeline that always fails leaves the file system
unchanged and a two-file batch containing the failing file equals the batch
without it. -/
theorem convert_error_skip_witness :
    convert_to_432hz (fun _ _ => Except.error "decode failed") [] "a.mp3" none "mp3" = [] ∧
      batchFiles (fun _ _ => Except.error "decode failed") [] ([] ++ "a.mp3" :: ["b.wav"]) none "mp3"
        = batchFiles (fun _ _ => Except.error "decode failed") [] ([] ++ ["b.wav"]) none "mp3" :=
  ⟨(convert_error_skip_batch_continues (fun _ _ => Except.error "decode failed") "a.mp3"
      (fun _ => ⟨"decode failed", rfl⟩)).1 [] none "mp3",
    (convert_error_skip_batch_continues (fun _ _ => Except.error "decode failed") "a.mp3"
      (fun _ => ⟨"decode failed", rfl⟩)).2 [] none "mp3" [] ["b.wav"]⟩

/-! ## Claim C10 -/

/-- C10 (code bug in commandconverter432.py).  The claim says the temporary
download directory is deleted on every exit path.  converter.py, whose URL
branch runs inside try/finally, does delete it on every exit path; but
commandconverter432.py has no try/finally, so when the downloader raises
the exception propagates before any cleanup and the temporary directory is
retained. -/
theorem cc_main_youtube_leaks_tempdir :
    ∀ (process : FS → String → Except String String) (s0 : SysSt)
      (outFolder : Option String) (fmt : String),
      (cc_main_youtube (fun _ => Except.error "DownloadError") process s0 outFolder fmt).1
          = Outcome.raised "DownloadError" ∧
        (cc_main_youtube (fun _ => Except.error "DownloadError") process s0 outFolder fmt).2.tempExists
          = true ∧
        (∀ download, (conv_main_youtube download process s0 outFolder fmt).2.tempExists = false) ∧
        (conv_main_youtube (fun _ => Except.error "DownloadError") process s0 outFolder fmt).1
          = Outcome.raised "DownloadError" := by
  intro process s0 oF fmt
  refine ⟨rfl, rfl, fun download => ?_, rfl⟩
  unfold conv_main_youtube
  cases download { s0 with tempExists := true } <;> rfl

/-! ## Helper lemmas: the detector end to end -/

theorem analyze_tone_def (fftMag : List ℤ → List ℚ) (song : Buffer) :
    analyze_tone fftMag song
      = selectTone ((fftMag (window100 (padIfShort song))).map
          (fun v => v / ((window100 (padIfShort song)).length : ℚ)))
        song.rate (window100 (padIfShort song)).length := rfl

theorem getD_replicate {n i : ℕ} {q : ℚ} (h : i < n) :
    (List.replicate n q).getD i 0 = q := by
  rw [List.getD_eq_getElem?_getD, List.getElem?_eq_getElem (by simpa using h)]
  simp

theorem foldl_add_const (g : ℚ → ℚ) (q : ℚ) :
    ∀ (l : List ℚ) (a : ℚ), (∀ t ∈ l, g t = q) →
      l.foldl (fun acc t => acc + g t) a = a + l.length * q := by
  intro l
  induction l with
  | nil => intro a _; simp
  | cons c cs ih =>
    intro a h
    rw [List.foldl_cons, h c (List.mem_cons_self c cs),
      ih (a + q) (fun x hx => h x (List.mem_cons_of_mem c hx)), List.length_cons]
    push_cast
    ring

theorem candidateScore_replicate {rate N n : ℕ} {q c : ℚ}
    (hrange : ∀ t ∈ tones c, 0 ≤ binIndex rate N t ∧ binIndex rate N t < (n : ℤ)) :
    candidateScore (List.replicate n q) rate N c
      = Except.ok (((tones c).length : ℚ) * q) := by
  rw [candidateScore_ok (by simpa using hrange)]
  congr 1
  rw [foldl_add_const (fun t => (List.replicate n q).getD (binIndex rate N t).toNat 0) q
    (tones c) 0 ?_]
  · rw [zero_add]
  · intro t ht
    apply getD_replicate
    have h := hrange t ht
    omega

theorem selectPure_spec (sc : ℚ → ℚ) (l : List ℚ) (h : ∃ c ∈ l, 0 < sc c) :
    (selectPure sc l).2 ∈ l ∧
      (∀ c ∈ l, sc c ≤ sc (selectPure sc l).2) ∧
      ∃ pre post, l = pre ++ (selectPure sc l).2 :: post ∧
        ∀ c ∈ pre, sc c < sc (selectPure sc l).2 := by
  obtain ⟨inv1, _, inv3⟩ := selectPure_invariant sc l ((0 : ℚ), (0 : ℚ))
  obtain ⟨c0, hc0, hc0pos⟩ := h
  have hfirst : (selectPure sc l).1 = l.foldl (fun m c => max m (sc c)) 0 := inv1
  have hge : ∀ c ∈ l, sc c ≤ (selectPure sc l).1 := by
    intro c hc
    rw [hfirst]
    exact foldl_max_mem_le sc l 0 c hc
  have hpos1 : (0 : ℚ) < (selectPure sc l).1 := lt_of_lt_of_le hc0pos (hge c0 hc0)
  obtain ⟨pre, post, hsplit, hscv, hpre⟩ := inv3 hpos1
  have hscv2 : sc (selectPure sc l).2 = (selectPure sc l).1 := hscv
  have hsplit2 : l = pre ++ (selectPure sc l).2 :: post := hsplit
  have hpre2 : ∀ c ∈ pre, sc c < (selectPure sc l).1 := hpre
  have hmem : (selectPure sc l).2 ∈ l := by
    have hin : (selectPure sc l).2 ∈ pre ++ (selectPure sc l).2 :: post :=
      List.mem_append.mpr (Or.inr (List.mem_cons_self _ _))
    rwa [← hsplit2] at hin
  refine ⟨hmem, fun c hc => ?_, pre, post, hsplit2, fun c hc => ?_⟩
  · rw [hscv2]
    exact hge c hc
  · rw [hscv2]
    exact hpre2 c hc

/-! ## Claim C2 -/

/-- C2 (code bug).  The claim (the safety clamp of the spec) says out-of-range
ladder bin indices contribute zero and the scoring never reads out of
bounds.  The scripts index fft_normed without any bounds check: for a 1 s
mono buffer at 8000 Hz the window is 800000 samples, yet the top ladder
entry of the last candidate maps to bin round(7902.13·cMax/440·100) =
804760 ≥ 800000, so numpy raises IndexError — modelled here as the detector
returning an exception. -/
theorem analyze_tone_index_error_8000 :
    analyze_tone (fun w => List.replicate w.length 0) ⟨List.replicate 8000 0, 8000⟩
      = Except.error () := by
  have hN : (window100 (padIfShort ⟨List.replicate 8000 0, 8000⟩)).length = 100 * 8000 :=
    window100_padIfShort_length ⟨List.replicate 8000 0, 8000⟩ (by decide)
  rw [analyze_tone_def]
  apply selectTone_error
  refine ⟨cMax, cMax_mem_candidates, ?_⟩
  apply candidateScore_error
  refine ⟨790213 / 100 * cMax / 440, List.mem_map.mpr ⟨790213 / 100, last_tone_mem, rfl⟩, ?_⟩
  have hxs : ((List.replicate (window100 (padIfShort ⟨List.replicate 8000 0, 8000⟩)).length
      (0 : ℚ)).map
      (fun v => v / ((window100 (padIfShort ⟨List.replicate 8000 0, 8000⟩)).length : ℚ))).length
      = 800000 := by
    rw [List.length_map, List.length_replicate, hN]
  rw [hxs]
  have hrw : (Buffer.mk (List.replicate 8000 (0 : ℤ)) 8000).rate = 8000 := rfl
  rw [hrw, hN, binIndex_eq 8000 (by norm_num)]
  have h1 := npRound_ge (790213 / 100 * cMax / 440 * 100)
  have hv : (800000 : ℚ) + 1 / 2 ≤ 790213 / 100 * cMax / 440 * 100 := by
    norm_num [cMax, f01]
  have h2 : ((800000 : ℚ)) ≤ (npRound (790213 / 100 * cMax / 440 * 100) : ℚ) := by linarith
  exact_mod_cast h2

/-! ## Claim C1 -/

/-- C1, counterexample.  The claim says the detector always returns the
best-scoring grid candidate, a float in [424.0, 448.0].  On an all-zero
buffer (48 kHz, 1 s) every candidate score is 0, the strict-improvement
scan never replaces the initial max_freq = 0, and analyze_tone returns 0 —
which is not a grid candidate and lies outside [424.0, 448.0]. -/
theorem analyze_tone_zero_input :
    analyze_tone (fun w => List.replicate w.length 0) ⟨List.replicate 48000 0, 48000⟩
        = Except.ok 0 ∧ ¬ ((424 : ℚ) ≤ 0) := by
  refine ⟨?_, by norm_num⟩
  have hN : (window100 (padIfShort ⟨List.replicate 48000 0, 48000⟩)).length = 100 * 48000 :=
    window100_padIfShort_length ⟨List.replicate 48000 0, 48000⟩ (by decide)
  rw [analyze_tone_def, List.map_replicate, zero_div]
  have hrw : (Buffer.mk (List.replicate 48000 (0 : ℤ)) 48000).rate = 48000 := rfl
  rw [hrw, hN]
  have hscore : ∀ c ∈ candidates,
      candidateScore (List.replicate (100 * 48000) (0 : ℚ)) 48000 (100 * 48000) c
        = Except.ok 0 := by
    intro c hc
    have h := @candidateScore_replicate 48000 (100 * 48000) (100 * 48000) 0 c ?_
    · rw [h]
      norm_num
    · intro t ht
      obtain ⟨t0, ht0, rfl⟩ := List.mem_map.mp ht
      have hb := @binIndex_range 48000 (by norm_num) c hc t0 ht0
      exact ⟨hb.1, by exact_mod_cast hb.2⟩
  rw [selectTone_eq (fun c hc => ⟨0, hscore c hc⟩)]
  rw [selectPure_all_zero _ _ (fun c hc => scoreOf_eq_of_ok (hscore c hc))]

/-- C1 (amended).  Provided every spectrum magnitude is indexed in range
(rate ≥ 8048 suffices for the fixed grid) and some candidate attains a
strictly positive score, analyze_tone returns the first candidate in
ascending grid order attaining the strictly greatest aggregate score of the
108 normalized ladder-bin magnitudes; the returned value is a grid
candidate in [424.0, cMax ≈ 448.1] (not [424.0, 448.0]: the arange grid
overshoots to 448.1). -/
theorem analyze_tone_first_argmax (fftMag : List ℤ → List ℚ) (b : Buffer)
    (xs : List ℚ) (N : ℕ)
    (hN : N = (window100 (padIfShort b)).length)
    (hxs : xs = (fftMag (window100 (padIfShort b))).map (fun v => v / (N : ℚ)))
    (hr : 8048 ≤ b.rate)
    (hlen : (fftMag (window100 (padIfShort b))).length = (window100 (padIfShort b)).length)
    (hpos : ∃ c ∈ candidates, 0 < scoreOf xs b.rate N c) :
    ∃ v, analyze_tone fftMag b = Except.ok v ∧ v ∈ candidates ∧ 424 ≤ v ∧ v ≤ cMax ∧
      (∀ c ∈ candidates, scoreOf xs b.rate N c ≤ scoreOf xs b.rate N v) ∧
      ∃ pre post, candidates = pre ++ v :: post ∧
        ∀ c ∈ pre, scoreOf xs b.rate N c < scoreOf xs b.rate N v := by
  subst hN
  subst hxs
  have hr0 : 0 < b.rate := by omega
  have hwlen : (window100 (padIfShort b)).length = 100 * b.rate :=
    window100_padIfShort_length b hr0
  have hxslen : ((fftMag (window100 (padIfShort b))).map
      (fun v => v / ((window100 (padIfShort b)).length : ℚ))).length = 100 * b.rate := by
    rw [List.length_map, hlen, hwlen]
  have hok : ∀ c ∈ candidates, ∃ s,
      candidateScore ((fftMag (window100 (padIfShort b))).map
        (fun v => v / ((window100 (padIfShort b)).length : ℚ)))
        b.rate (window100 (padIfShort b)).length c = Except.ok s := by
    intro c hc
    refine ⟨_, candidateScore_ok ?_⟩
    intro t ht
    obtain ⟨t0, ht0, rfl⟩ := List.mem_map.mp ht
    have hb := binIndex_range hr hc ht0
    rw [hxslen, hwlen]
    exact ⟨hb.1, by exact_mod_cast hb.2⟩
  rw [analyze_tone_def, selectTone_eq hok]
  obtain ⟨hmem, hge, pre, post, hsplit, hpre⟩ := selectPure_spec _ candidates hpos
  exact ⟨_, rfl, hmem, (candidate_bounds hmem).1, (candidate_bounds hmem).2,
    hge, pre, post, hsplit, hpre⟩

theorem scoreOf_const_pos (b : Buffer) (hr : 8048 ≤ b.rate) (c : ℚ) (hc : c ∈ candidates) :
    0 < scoreOf ((List.replicate (window100 (padIfShort b)).length (1 : ℚ)).map
        (fun v => v / (((window100 (padIfShort b)).length : ℕ) : ℚ)))
      b.rate (window100 (padIfShort b)).length c := by
  have hr0 : 0 < b.rate := by omega
  have hw : (window100 (padIfShort b)).length = 100 * b.rate :=
    window100_padIfShort_length b hr0
  rw [List.map_replicate, hw]
  have hNq : (0 : ℚ) < ((100 * b.rate : ℕ) : ℚ) := by
    have : 0 < 100 * b.rate := by omega
    exact_mod_cast this
  have hsc := @candidateScore_replicate b.rate (100 * b.rate) (100 * b.rate)
      (1 / ((100 * b.rate : ℕ) : ℚ)) c ?_
  · rw [scoreOf_eq_of_ok hsc]
    have hlen : (tones c).length = 108 := by
      rw [tones, List.length_map, tone_freq_length]
    rw [hlen]
    positivity
  · intro t ht
    obtain ⟨t0, ht0, rfl⟩ := List.mem_map.mp ht
    have hb := binIndex_range hr hc ht0
    exact ⟨hb.1, by exact_mod_cast hb.2⟩

/-- C1 (amended), witness: on a 1 s buffer at 8048 Hz with a constant-one
magnitude spectrum, the detector succeeds and returns a grid candidate in
[424, cMax]. -/
theorem analyze_tone_first_argmax_witness :
    ∃ v, analyze_tone (fun w => List.replicate w.length 1) ⟨List.replicate 8048 0, 8048⟩
        = Except.ok v ∧ v ∈ candidates ∧ 424 ≤ v ∧ v ≤ cMax := by
  obtain ⟨v, h1, h2, h3, h4, _⟩ := analyze_tone_first_argmax
    (fun w => List.replicate w.length 1) ⟨List.replicate 8048 0, 8048⟩
    ((List.replicate (window100 (padIfShort ⟨List.replicate 8048 0, 8048⟩)).length (1 : ℚ)).map
      (fun v => v / (((window100 (padIfShort ⟨List.replicate 8048 0, 8048⟩)).length : ℕ) : ℚ)))
    (window100 (padIfShort ⟨List.replicate 8048 0, 8048⟩)).length
    rfl rfl (by decide) (by rw [List.length_replicate])
    ⟨424, by
      rw [candidates_eq]
      exact List.mem_map.mpr ⟨0, List.mem_range.mpr (by norm_num), by norm_num⟩,
      scoreOf_const_pos ⟨List.replicate 8048 0, 8048⟩ (by decide) 424 (by
        rw [candidates_eq]
        exact List.mem_map.mpr ⟨0, List.mem_range.mpr (by norm_num), by norm_num⟩)⟩
  exact ⟨v, h1, h2, h3, h4⟩

end MusicVidGen
